import Mathlib

/-!
Shallow embedding of the script-number engine (`src/script/script_num.cpp`)
and of the invalid-transaction publisher data structures
(`src/invalid_txn_publisher.h`) of the bitcoin-sv slice, together with
theorems checking the specification's claims against the code.

Bytes are modelled as natural numbers below 256; machine integers as `Int`
with explicit range conditions where the source relies on them.
-/

/-- Error kinds of `CScriptNum` operations: the exception classes
`scriptnum_overflow_error` and `scriptnum_minencode_error` of the source,
typed outcomes for the source's `assert` statements (`tagMismatch` for
`assert(equal_index(other))`, `arithmeticOverflow` for the overflow
assertions in `operator+=` / `operator-=`), `divByZero` for the spec's
error kind on big-integer division by zero, and `undefinedBehaviour` for a
native C++ operation with no defined result. -/
inductive ScriptNumError where
  | overflow
  | minEncoding
  | tagMismatch
  | arithmeticOverflow
  | divByZero
  | undefinedBehaviour
  deriving DecidableEq, Repr

/-- Value of a little-endian base-256 digit list (byte 0 least significant). -/
def leToNat : List Nat → Nat
  | [] => 0
  | b :: bs => b + 256 * leToNat bs

/-- Shortest little-endian base-256 digit list of a natural number
(empty for zero, top digit nonzero otherwise). -/
def natToLE (n : Nat) : List Nat :=
  if h : n = 0 then [] else n % 256 :: natToLE (n / 256)
termination_by n
decreasing_by exact Nat.div_lt_self (Nat.pos_of_ne_zero h) (by norm_num)

theorem leToNat_natToLE (n : Nat) : leToNat (natToLE n) = n := by
  induction n using Nat.strong_induction_on with
  | _ n ih =>
    rw [natToLE]
    split
    · simp [leToNat]; omega
    · rename_i h
      rw [leToNat,
        ih (n / 256) (Nat.div_lt_self (Nat.pos_of_ne_zero h) (by norm_num))]
      omega

theorem natToLE_ne_nil {n : Nat} (h : n ≠ 0) : natToLE n ≠ [] := by
  rw [natToLE]
  simp [h]

theorem natToLE_lt (n : Nat) : ∀ x ∈ natToLE n, x < 256 := by
  induction n using Nat.strong_induction_on with
  | _ n ih =>
    rw [natToLE]
    split
    · simp
    · rename_i h
      intro x hx
      rcases List.mem_cons.mp hx with h1 | h2
      · omega
      · exact ih (n / 256)
          (Nat.div_lt_self (Nat.pos_of_ne_zero h) (by norm_num)) x h2

/-- Unfolding equation used to peel one byte from a little-endian encoding. -/
theorem natToLE_add (b L : Nat) (hb : b < 256) (h : b + 256 * L ≠ 0) :
    natToLE (b + 256 * L) = b :: natToLE L := by
  rw [natToLE]
  rw [dif_neg h]
  have h1 : (b + 256 * L) % 256 = b := by omega
  have h2 : (b + 256 * L) / 256 = L := by omega
  rw [h1, h2]

/-- Whether the last byte of a list is nonzero (`false` on the empty list). -/
def lastNonzero : List Nat → Bool
  | [] => false
  | [b] => b != 0
  | _ :: b :: bs => lastNonzero (b :: bs)

theorem lastNonzero_cons (a : Nat) (l : List Nat) (h : l ≠ []) :
    lastNonzero (a :: l) = lastNonzero l := by
  cases l with
  | nil => exact absurd rfl h
  | cons b bs => rfl

theorem natToLE_lastNonzero : ∀ n : Nat, n ≠ 0 → lastNonzero (natToLE n) = true := by
  intro n
  induction n using Nat.strong_induction_on with
  | _ n ih =>
    intro h
    rw [natToLE, dif_neg h]
    by_cases h2 : n / 256 = 0
    · have hn : n < 256 := by omega
      rw [natToLE, dif_pos h2]
      simp [lastNonzero]
      omega
    · rw [lastNonzero_cons _ _ (natToLE_ne_nil h2)]
      exact ih (n / 256)
        (Nat.div_lt_self (Nat.pos_of_ne_zero h) (by norm_num)) h2

/-- Modelled from the spec: the sign/magnitude split performed by
`bsv::deserialize` (declared in `int_serialization.h`, not part of the
source slice).  Per spec section 6, bytes `0..n-2` are magnitude low-to-high,
the final byte's low 7 bits are the magnitude's high part and its bit 7 is
the sign.  Returns the magnitude digit list and the sign flag. -/
def splitSign : List Nat → List Nat × Bool
  | [] => ([], false)
  | [b] => ([b % 128], decide (128 ≤ b))
  | b :: c :: bs =>
    (b :: (splitSign (c :: bs)).1, (splitSign (c :: bs)).2)

/-- Modelled from the spec: the final step of `bsv::serialize` — place the
sign bit on the encoding of the magnitude.  If the top magnitude byte already
uses bit 7, a dedicated sign byte (`0x80` or `0x00`) is appended; otherwise
the sign bit is set on the top byte itself. -/
def addSign (neg : Bool) : List Nat → List Nat
  | [] => []
  | [b] =>
    if 128 ≤ b then [b, if neg then 128 else 0]
    else [if neg then b + 128 else b]
  | b :: c :: bs => b :: addSign neg (c :: bs)

/-- Modelled from the spec: `bsv::deserialize` (sign-magnitude little-endian
decoding, spec sections 3 and 6); `int_serialization.h` is not part of the
source slice.  The empty sequence decodes to zero. -/
def decodeScriptNum (b : List Nat) : Int :=
  if (splitSign b).2 then -(leToNat (splitSign b).1 : Int)
  else (leToNat (splitSign b).1 : Int)

/-- Modelled from the spec: `bsv::serialize` (sign-magnitude little-endian
encoding of spec sections 3 and 6, shortest form); `int_serialization.h` is
not part of the source slice.  Zero encodes to the empty sequence. -/
def encodeScriptNum (n : Int) : List Nat :=
  addSign (decide (n < 0)) (natToLE n.natAbs)

/-- Modelled from the spec: the minimality test of `bsv::IsMinimallyEncoded`
restricted to the byte content (spec section 3): the sequence is empty, or
its top byte is nonzero after masking the sign bit, or the top byte is
`0x00`/`0x80` and the byte below it has bit 7 set (so no shorter equivalent
exists). -/
def minimalCore : List Nat → Bool
  | [] => true
  | [b] => b % 128 != 0
  | [a, b] => (b % 128 != 0) || decide (128 ≤ a)
  | _ :: b :: c :: bs => minimalCore (b :: c :: bs)

/-- Modelled from the spec: `bsv::IsMinimallyEncoded(vch, nMaxNumSize)`
(spec section 4.1); `int_serialization.h` is not part of the source slice.
A sequence longer than the size bound is not minimal. -/
def IsMinimallyEncoded (vch : List Nat) (nMaxNumSize : Nat) : Bool :=
  decide (vch.length ≤ nMaxNumSize) && minimalCore vch

theorem addSign_ne_nil (neg : Bool) (l : List Nat) (h : l ≠ []) :
    addSign neg l ≠ [] := by
  match l with
  | [b] =>
    rw [addSign]
    split <;> simp
  | b :: c :: bs =>
    rw [addSign]
    simp

/-- Splitting the sign off a sign-carrying encoding recovers the magnitude's
value and the sign flag. -/
theorem splitSign_addSign (neg : Bool) :
    ∀ m : List Nat, m ≠ [] → (∀ x ∈ m, x < 256) →
      leToNat (splitSign (addSign neg m)).1 = leToNat m ∧
      (splitSign (addSign neg m)).2 = neg := by
  intro m
  induction m with
  | nil => intro h; exact absurd rfl h
  | cons b t ih =>
    intro _ hlt
    have hb : b < 256 := hlt b (List.mem_cons_self b t)
    cases t with
    | nil =>
      by_cases hb128 : 128 ≤ b
      · cases neg <;> simp [addSign, splitSign, hb128, leToNat]
      · cases neg <;> simp [addSign, splitSign, hb128, leToNat] <;> omega
    | cons c bs =>
      have hne : addSign neg (c :: bs) ≠ [] := addSign_ne_nil neg _ (by simp)
      obtain ⟨ih1, ih2⟩ := ih (by simp)
        (fun x hx => hlt x (List.mem_cons_of_mem _ hx))
      rw [addSign]
      cases hA : addSign neg (c :: bs) with
      | nil => exact absurd hA hne
      | cons a as =>
        rw [hA] at ih1 ih2
        constructor
        · rw [splitSign, leToNat, leToNat, ih1, leToNat]
        · rw [splitSign]
          exact ih2

/-- Decoding inverts encoding: round-trip direction one of the byte codec. -/
theorem decode_encode (n : Int) : decodeScriptNum (encodeScriptNum n) = n := by
  by_cases h : n = 0
  · subst h
    simp [encodeScriptNum, natToLE, addSign, decodeScriptNum, splitSign, leToNat]
  · have hmag : n.natAbs ≠ 0 := Int.natAbs_ne_zero.mpr h
    obtain ⟨h1, h2⟩ := splitSign_addSign (decide (n < 0)) (natToLE n.natAbs)
      (natToLE_ne_nil hmag) (natToLE_lt _)
    rw [encodeScriptNum, decodeScriptNum, h1, h2, leToNat_natToLE]
    simp only [decide_eq_true_eq]
    by_cases hn : n < 0
    · rw [if_pos hn]
      omega
    · rw [if_neg hn]
      omega

theorem splitSign_cons₂ (b c : Nat) (bs : List Nat) :
    splitSign (b :: c :: bs) = (b :: (splitSign (c :: bs)).1, (splitSign (c :: bs)).2) := rfl

theorem splitSign_cons₂_fst (b c : Nat) (bs : List Nat) :
    (splitSign (b :: c :: bs)).1 = b :: (splitSign (c :: bs)).1 := rfl

theorem splitSign_cons₂_snd (b c : Nat) (bs : List Nat) :
    (splitSign (b :: c :: bs)).2 = (splitSign (c :: bs)).2 := rfl

theorem addSign_cons₂ (neg : Bool) (b c : Nat) (bs : List Nat) :
    addSign neg (b :: c :: bs) = b :: addSign neg (c :: bs) := rfl

theorem minimalCore_cons (a b c : Nat) (bs : List Nat) :
    minimalCore (a :: b :: c :: bs) = minimalCore (b :: c :: bs) := rfl

theorem leToNat_cons (b : Nat) (bs : List Nat) :
    leToNat (b :: bs) = b + 256 * leToNat bs := rfl

/-- The encoder's sign-placement step yields a minimally encoded sequence
whenever the magnitude encoding is in shortest form. -/
theorem minimalCore_addSign (neg : Bool) :
    ∀ m : List Nat, m ≠ [] → lastNonzero m = true →
      minimalCore (addSign neg m) = true := by
  intro m
  induction m with
  | nil => intro h; exact absurd rfl h
  | cons b t ih =>
    intro _ hlast
    cases t with
    | nil =>
      have hb : b ≠ 0 := by simpa [lastNonzero] using hlast
      by_cases hb128 : 128 ≤ b
      · cases neg <;> simp [addSign, minimalCore, hb128]
      · cases neg <;> simp [addSign, minimalCore, hb128] <;> omega
    | cons c bs =>
      have hlast' : lastNonzero (c :: bs) = true := by
        rwa [lastNonzero_cons b _ (by simp)] at hlast
      cases bs with
      | nil =>
        have hc : c ≠ 0 := by simpa [lastNonzero] using hlast'
        by_cases hc128 : 128 ≤ c
        · cases neg <;> simp [addSign, minimalCore, hc128]
        · cases neg <;> simp [addSign, minimalCore, hc128] <;> omega
      | cons d t' =>
        have hne : addSign neg (d :: t') ≠ [] := addSign_ne_nil neg _ (by simp)
        have ihr := ih (by simp) hlast'
        rw [addSign_cons₂, addSign_cons₂]
        rw [addSign_cons₂] at ihr
        cases hA : addSign neg (d :: t') with
        | nil => exact absurd hA hne
        | cons e es =>
          rw [hA] at ihr
          rw [minimalCore_cons]
          exact ihr

/-- The byte serialization of a script number is minimally encoded
(for any size bound accommodating its length). -/
theorem encode_isMinimal (n : Int) (ms : Nat)
    (h : (encodeScriptNum n).length ≤ ms) :
    IsMinimallyEncoded (encodeScriptNum n) ms = true := by
  rw [IsMinimallyEncoded]
  rw [Bool.and_eq_true, decide_eq_true_eq]
  refine ⟨h, ?_⟩
  by_cases hn : n = 0
  · subst hn
    simp [encodeScriptNum, natToLE, addSign, minimalCore]
  · exact minimalCore_addSign _ _ (natToLE_ne_nil (Int.natAbs_ne_zero.mpr hn))
      (natToLE_lastNonzero _ (Int.natAbs_ne_zero.mpr hn))

/-- A nonempty minimally encoded sequence has nonzero magnitude. -/
theorem splitSign_mag_ne_zero :
    ∀ b : List Nat, b ≠ [] → minimalCore b = true →
      leToNat (splitSign b).1 ≠ 0 := by
  intro b
  induction b with
  | nil => intro h; exact absurd rfl h
  | cons x t ih =>
    intro _ hmin
    cases t with
    | nil =>
      simp [minimalCore] at hmin
      simp [splitSign, leToNat]
      omega
    | cons y t' =>
      cases t' with
      | nil =>
        simp [minimalCore] at hmin
        simp [splitSign, leToNat]
        rcases hmin with h | h <;> omega
      | cons z t'' =>
        have hmin' : minimalCore (y :: z :: t'') = true := hmin
        have ihr := ih (by simp) hmin'
        rw [splitSign_cons₂, leToNat_cons]
        omega

/-- On a nonempty minimal sequence, re-encoding the split magnitude/sign pair
reproduces the sequence byte for byte. -/
theorem addSign_splitSign_eq :
    ∀ b : List Nat, b ≠ [] → (∀ x ∈ b, x < 256) → minimalCore b = true →
      addSign (splitSign b).2 (natToLE (leToNat (splitSign b).1)) = b := by
  intro b
  induction b with
  | nil => intro h; exact absurd rfl h
  | cons x t ih =>
    intro _ hlt hmin
    have hx : x < 256 := hlt x (List.mem_cons_self x t)
    cases t with
    | nil =>
      have hnz : x % 128 ≠ 0 := by simpa [minimalCore] using hmin
      simp only [splitSign]
      have h1 : leToNat [x % 128] = x % 128 := by simp [leToNat]
      rw [h1, natToLE, dif_neg hnz]
      have h2 : x % 128 % 256 = x % 128 := by omega
      have h3 : x % 128 / 256 = 0 := by omega
      rw [h2, h3, natToLE, dif_pos rfl]
      rw [addSign, if_neg (by omega)]
      by_cases hx128 : 128 ≤ x
      · simp [hx128]
        omega
      · simp [hx128]
        omega
    | cons y t' =>
      have hy : y < 256 := hlt y (List.mem_cons_of_mem _ (List.mem_cons_self y t'))
      cases t' with
      | nil =>
        have hmin' : (y % 128 ≠ 0) ∨ 128 ≤ x := by
          simpa [minimalCore] using hmin
        rw [splitSign_cons₂]
        simp only [splitSign]
        have h1 : leToNat [x, y % 128] = x + 256 * (y % 128) := by
          simp [leToNat]
        rw [h1]
        by_cases hy128 : y % 128 ≠ 0
        · rw [natToLE_add x (y % 128) hx (by omega)]
          rw [natToLE, dif_neg hy128]
          have h2 : y % 128 % 256 = y % 128 := by omega
          have h3 : y % 128 / 256 = 0 := by omega
          rw [h2, h3, natToLE, dif_pos rfl]
          rw [addSign_cons₂, addSign, if_neg (by omega)]
          by_cases hy' : 128 ≤ y
          · simp [hy']
            omega
          · simp [hy']
            omega
        · have hx128 : 128 ≤ x := by tauto
          have hy0 : y % 128 = 0 := by tauto
          rw [hy0]
          have h4 : x + 256 * 0 = x := by omega
          rw [h4, natToLE, dif_neg (by omega)]
          have h5 : x % 256 = x := by omega
          have h6 : x / 256 = 0 := by omega
          rw [h5, h6, natToLE, dif_pos rfl]
          rw [addSign, if_pos hx128]
          have hy01 : y = 0 ∨ y = 128 := by omega
          rcases hy01 with h | h <;> subst h <;> simp
      | cons z t'' =>
        have hmin' : minimalCore (y :: z :: t'') = true := hmin
        have hlt' : ∀ a ∈ y :: z :: t'', a < 256 :=
          fun a ha => hlt a (List.mem_cons_of_mem _ ha)
        have ihr := ih (by simp) hlt' hmin'
        have hL' := splitSign_mag_ne_zero (y :: z :: t'') (by simp) hmin'
        rw [splitSign_cons₂_fst, splitSign_cons₂_snd, leToNat_cons]
        rw [natToLE_add x _ hx (by omega)]
        cases hE : natToLE (leToNat (splitSign (y :: z :: t'')).1) with
        | nil => exact absurd hE (natToLE_ne_nil hL')
        | cons e es =>
          rw [hE] at ihr
          rw [addSign_cons₂, ihr]

/-- Encoding the decoded value of a nonempty sequence with nonzero magnitude
is the sign-placement of the re-encoded magnitude. -/
theorem encodeScriptNum_decode (b : List Nat)
    (hmag : leToNat (splitSign b).1 ≠ 0) :
    encodeScriptNum (decodeScriptNum b) =
      addSign (splitSign b).2 (natToLE (leToNat (splitSign b).1)) := by
  rw [decodeScriptNum]
  cases hs : (splitSign b).2
  · rw [if_neg (by simp)]
    rw [encodeScriptNum]
    have h0 : (decide ((leToNat (splitSign b).1 : Int) < 0)) = false :=
      decide_eq_false (by omega)
    rw [h0]
    have h2 : ((leToNat (splitSign b).1 : Int)).natAbs = leToNat (splitSign b).1 := by
      omega
    rw [h2]
  · rw [if_pos rfl]
    rw [encodeScriptNum]
    have hpos : (0 : Int) < (leToNat (splitSign b).1 : Int) := by
      exact_mod_cast Nat.pos_of_ne_zero hmag
    have h1 : (decide (-(leToNat (splitSign b).1 : Int) < 0)) = true :=
      decide_eq_true (by omega)
    rw [h1]
    have h2 : (-(leToNat (splitSign b).1 : Int)).natAbs = leToNat (splitSign b).1 := by
      omega
    rw [h2]

/-- Round-trip direction two of the byte codec: encoding the decoded value of
a minimally encoded byte sequence reproduces the sequence. -/
theorem encode_decode (b : List Nat) (hlt : ∀ x ∈ b, x < 256)
    (hmin : minimalCore b = true) :
    encodeScriptNum (decodeScriptNum b) = b := by
  cases b with
  | nil =>
    simp [decodeScriptNum, splitSign, leToNat, encodeScriptNum, natToLE, addSign]
  | cons x t =>
    have hmag := splitSign_mag_ne_zero (x :: t) (by simp) hmin
    rw [encodeScriptNum_decode _ hmag]
    exact addSign_splitSign_eq (x :: t) (by simp) hlt hmin

/-- `std::numeric_limits<int64_t>::max()`. -/
def int64Max : Int := 9223372036854775807

/-- `std::numeric_limits<int64_t>::min()`. -/
def int64Min : Int := -9223372036854775808

/-- `std::numeric_limits<int>::max()` (32-bit native int). -/
def intMax : Int := 2147483647

/-- `std::numeric_limits<int>::min()` (32-bit native int). -/
def intMin : Int := -2147483648

/-- The value of `CScriptNum`: `std::variant<int64_t, bsv::bint>` — index 0
(`small`) holds the machine 64-bit integer, index 1 (`big`) the
arbitrary-precision integer.  Both are carried as `Int`; the 64-bit range
of the small alternative appears as explicit hypotheses where the source
relies on it. -/
inductive CScriptNum where
  | small (n : Int)
  | big (n : Int)
  deriving DecidableEq, Repr

/-- Mathematical value held by either alternative. -/
def CScriptNum.value : CScriptNum → Int
  | .small n => n
  | .big n => n

/-- `CScriptNum::equal_index`: whether two values hold the same alternative. -/
def CScriptNum.equal_index : CScriptNum → CScriptNum → Bool
  | .small _, .small _ => true
  | .big _, .big _ => true
  | _, _ => false

/-- `CScriptNum::CScriptNum(vch, fRequireMinimal, nMaxNumSize, big_int)`:
throws `scriptnum_overflow_error` when the input is longer than
`nMaxNumSize`, then `scriptnum_minencode_error` when minimality is required
but violated; an empty input leaves zero in the alternative selected by
`big_int`; otherwise the bytes are deserialized into that alternative. -/
def CScriptNum.fromBytes (vch : List Nat) (fRequireMinimal : Bool)
    (nMaxNumSize : Nat) (big_int : Bool) : Except ScriptNumError CScriptNum :=
  if nMaxNumSize < vch.length then .error .overflow
  else if fRequireMinimal && !(IsMinimallyEncoded vch nMaxNumSize) then
    .error .minEncoding
  else if vch.isEmpty then .ok (if big_int then .big 0 else .small 0)
  else .ok (if big_int then .big (decodeScriptNum vch)
            else .small (decodeScriptNum vch))

/-- `CScriptNum::getvch`: serialize whichever alternative is held. -/
def CScriptNum.getvch : CScriptNum → List Nat
  | .small n => encodeScriptNum n
  | .big n => encodeScriptNum n

/-- `CScriptNum::operator+=`: `assert(equal_index(other))`, then in the small
alternative the signed-overflow assertion guards the addition; the big
alternative adds unconditionally. -/
def CScriptNum.addAssign : CScriptNum → CScriptNum → Except ScriptNumError CScriptNum
  | .small x, .small y =>
    if y = 0 ∨ (0 < y ∧ x ≤ int64Max - y) ∨ (y < 0 ∧ int64Min - y ≤ x) then
      .ok (.small (x + y))
    else .error .arithmeticOverflow
  | .big x, .big y => .ok (.big (x + y))
  | _, _ => .error .tagMismatch

/-- `CScriptNum::operator-=`: `assert(equal_index(other))`, then in the small
alternative the signed-overflow assertion guards the subtraction; the big
alternative subtracts unconditionally. -/
def CScriptNum.subAssign : CScriptNum → CScriptNum → Except ScriptNumError CScriptNum
  | .small x, .small y =>
    if y = 0 ∨ (0 < y ∧ int64Min + y ≤ x) ∨ (y < 0 ∧ x ≤ int64Max + y) then
      .ok (.small (x - y))
    else .error .arithmeticOverflow
  | .big x, .big y => .ok (.big (x - y))
  | _, _ => .error .tagMismatch

/-- `CScriptNum::operator*=`: `assert(equal_index(other))`; no overflow check
in either alternative. -/
def CScriptNum.mulAssign : CScriptNum → CScriptNum → Except ScriptNumError CScriptNum
  | .small x, .small y => .ok (.small (x * y))
  | .big x, .big y => .ok (.big (x * y))
  | _, _ => .error .tagMismatch

/-- `CScriptNum::operator/=`: `assert(equal_index(other))`; the small
alternative performs the native `int64_t` division, which has no defined
result on a zero divisor (C++ undefined behaviour); the big alternative's
divisor check is modelled from the spec (`bsv::bint` is not part of the
source slice; spec section 4.2: division by zero fails with DivByZero). -/
def CScriptNum.divAssign : CScriptNum → CScriptNum → Except ScriptNumError CScriptNum
  | .small x, .small y =>
    if y = 0 then .error .undefinedBehaviour else .ok (.small (Int.tdiv x y))
  | .big x, .big y =>
    if y = 0 then .error .divByZero else .ok (.big (Int.tdiv x y))
  | _, _ => .error .tagMismatch

/-- `CScriptNum::operator%=`: `assert(equal_index(other))`; the small
alternative performs the native `int64_t` remainder, which has no defined
result on a zero divisor (C++ undefined behaviour); the big alternative's
divisor check is modelled from the spec (`bsv::bint` is not part of the
source slice; spec section 4.2: modulus by zero fails with DivByZero). -/
def CScriptNum.modAssign : CScriptNum → CScriptNum → Except ScriptNumError CScriptNum
  | .small x, .small y =>
    if y = 0 then .error .undefinedBehaviour else .ok (.small (Int.tmod x y))
  | .big x, .big y =>
    if y = 0 then .error .divByZero else .ok (.big (Int.tmod x y))
  | _, _ => .error .tagMismatch

/-- `CScriptNum::operator&=(const CScriptNum&)`: `assert(equal_index(other))`,
then bitwise AND on the held alternative. -/
def CScriptNum.andAssign : CScriptNum → CScriptNum → Except ScriptNumError CScriptNum
  | .small x, .small y => .ok (.small (Int.land x y))
  | .big x, .big y => .ok (.big (Int.land x y))
  | _, _ => .error .tagMismatch

/-- `operator==(const CScriptNum&, const CScriptNum&)`: equal alternatives
compare the variant values; differing alternatives compare the two held
integers through the heterogeneous `==` of the visit. -/
def CScriptNum.eqOp : CScriptNum → CScriptNum → Bool
  | .small x, .small y => decide (x = y)
  | .big x, .big y => decide (x = y)
  | .small x, .big y => decide (x = y)
  | .big x, .small y => decide (x = y)

/-- `operator<(const CScriptNum&, const CScriptNum&)`: equal alternatives
compare the variant values; differing alternatives compare the two held
integers through the heterogeneous `<` of the visit. -/
def CScriptNum.ltOp : CScriptNum → CScriptNum → Bool
  | .small x, .small y => decide (x < y)
  | .big x, .big y => decide (x < y)
  | .small x, .big y => decide (x < y)
  | .big x, .small y => decide (x < y)

/-- `CScriptNum::getint`: `assert(m_value.index() == 0)` (small alternative
only), then clamp the stored `int64_t` to the native `int` range. -/
def CScriptNum.getint : CScriptNum → Option Int
  | .big _ => none
  | .small n =>
    some (if intMax < n then intMax else if n < intMin then intMin else n)

/-- `CScriptNum::operator-()`: negate whichever alternative is held,
preserving the alternative. -/
def CScriptNum.negOp : CScriptNum → CScriptNum
  | .small n => .small (-n)
  | .big n => .big (-n)

theorem encodeScriptNum_zero : encodeScriptNum 0 = [] := by
  simp [encodeScriptNum, natToLE, addSign]

theorem encodeScriptNum_ne_nil (n : Int) (h : n ≠ 0) : encodeScriptNum n ≠ [] :=
  addSign_ne_nil _ _ (natToLE_ne_nil (Int.natAbs_ne_zero.mpr h))

/-- C1: for every integer representable in the chosen alternative, decoding
the bytes produced by `CScriptNum::getvch` through the byte constructor with
`fRequireMinimal = true` and a sufficient size bound yields the same value;
conversely, for every minimally encoded byte sequence, the byte constructor
succeeds and serializing the constructed value reproduces the sequence. -/
theorem c1_roundtrip (n : Int) (big_int : Bool) (b : List Nat) (ms : Nat) :
    ((big_int = false → int64Min ≤ n ∧ n ≤ int64Max) →
      CScriptNum.fromBytes
        (CScriptNum.getvch (if big_int then .big n else .small n)) true
        (CScriptNum.getvch (if big_int then .big n else .small n)).length
        big_int
        = .ok (if big_int then .big n else .small n)) ∧
    ((∀ x ∈ b, x < 256) → IsMinimallyEncoded b ms = true →
      ∀ v, CScriptNum.fromBytes b true ms big_int = .ok v →
        CScriptNum.getvch v = b) := by
  constructor
  · intro _
    have hgv : CScriptNum.getvch (if big_int then .big n else .small n) =
        encodeScriptNum n := by
      cases big_int <;> rfl
    rw [hgv, CScriptNum.fromBytes, if_neg (by omega)]
    rw [encode_isMinimal n (encodeScriptNum n).length (le_refl _)]
    rw [if_neg (by simp)]
    by_cases hn : n = 0
    · subst hn
      rw [encodeScriptNum_zero]
      cases big_int <;> simp
    · have hne : (encodeScriptNum n).isEmpty = false := by
        simp [List.isEmpty_iff, encodeScriptNum_ne_nil n hn]
      rw [hne, if_neg (by simp), decode_encode]
  · intro hlt hminIs v hv
    have hlen : b.length ≤ ms := by
      rw [IsMinimallyEncoded, Bool.and_eq_true, decide_eq_true_eq] at hminIs
      exact hminIs.1
    have hcore : minimalCore b = true := by
      rw [IsMinimallyEncoded, Bool.and_eq_true] at hminIs
      exact hminIs.2
    rw [CScriptNum.fromBytes, if_neg (by omega), hminIs] at hv
    rw [if_neg (by simp)] at hv
    by_cases hb : b = []
    · subst hb
      simp at hv
      cases big_int <;> simp_all <;> rw [← hv] <;>
        simp [CScriptNum.getvch, encodeScriptNum_zero]
    · have hne : b.isEmpty = false := by simp [List.isEmpty_iff, hb]
      rw [hne, if_neg (by simp)] at hv
      simp at hv
      cases big_int <;> simp_all <;> rw [← hv] <;>
        simp [CScriptNum.getvch] <;> exact encode_decode b hlt hcore

/-- C1 witness: the small-alternative value `-1` round-trips through
`getvch` and the byte constructor; the minimal sequence `[0x81]` is decoded
and re-serialized to itself. -/
theorem c1_roundtrip_witness :
    CScriptNum.fromBytes (CScriptNum.getvch (.small (-1))) true
      (CScriptNum.getvch (.small (-1))).length false = .ok (.small (-1)) ∧
    CScriptNum.getvch (.small (-1)) = [129] := by
  refine ⟨(c1_roundtrip (-1) false [129] 4).1 (by decide), ?_⟩
  simp [CScriptNum.getvch, encodeScriptNum, natToLE, addSign]

theorem decodeScriptNum_nil : decodeScriptNum [] = 0 := rfl

/-- C2: the byte constructor fails with Overflow exactly when the input is
longer than `nMaxNumSize`; otherwise it fails with MinEncoding exactly when
minimality is required and violated; otherwise it succeeds, and an empty
input yields zero in the alternative selected by `big_int`. -/
theorem c2_fromBytes_errors (vch : List Nat) (rm : Bool) (ms : Nat) (bi : Bool) :
    (CScriptNum.fromBytes vch rm ms bi = .error .overflow ↔ ms < vch.length) ∧
    (CScriptNum.fromBytes vch rm ms bi = .error .minEncoding ↔
      vch.length ≤ ms ∧ rm = true ∧ IsMinimallyEncoded vch ms = false) ∧
    ((∃ v, CScriptNum.fromBytes vch rm ms bi = .ok v) ↔
      vch.length ≤ ms ∧ (rm = true → IsMinimallyEncoded vch ms = true)) ∧
    (vch = [] →
      CScriptNum.fromBytes vch rm ms bi = .ok (if bi then .big 0 else .small 0)) := by
  have hnil : ∀ m, IsMinimallyEncoded [] m = true := by
    intro m
    simp [IsMinimallyEncoded, minimalCore]
  cases rm <;> cases bi <;>
    by_cases h1 : ms < vch.length <;>
    by_cases h4 : IsMinimallyEncoded vch ms = true <;>
    by_cases h5 : vch = [] <;>
    subst_eqs <;>
    simp_all [CScriptNum.fromBytes, List.isEmpty_iff, decodeScriptNum_nil] <;>
    rw [if_neg (by omega)] <;> simp

/-- C2 witness: `[0x01, 0x00]` is rejected as non-minimal at size bound 4,
and the empty input constructs big-integer zero. -/
theorem c2_fromBytes_errors_witness :
    CScriptNum.fromBytes [1, 0] true 4 false = .error .minEncoding ∧
    CScriptNum.fromBytes [] true 4 true = .ok (.big 0) := by
  constructor
  · exact (c2_fromBytes_errors [1, 0] true 4 false).2.1.mpr
      ⟨by decide, rfl, by decide⟩
  · simpa using (c2_fromBytes_errors [] true 4 true).2.2.2 rfl

/-- C3: in the small alternative, `+=` fails with ArithmeticOverflow exactly
when the mathematical sum leaves the signed 64-bit range, `-=` likewise for
the difference; in particular `small(INT64_MAX) += small(1)` fails. -/
theorem c3_arithmetic_overflow (x y : Int)
    (hx1 : int64Min ≤ x) (hx2 : x ≤ int64Max)
    (hy1 : int64Min ≤ y) (hy2 : y ≤ int64Max) :
    (CScriptNum.addAssign (.small x) (.small y) = .error .arithmeticOverflow ↔
      ¬(int64Min ≤ x + y ∧ x + y ≤ int64Max)) ∧
    (CScriptNum.subAssign (.small x) (.small y) = .error .arithmeticOverflow ↔
      ¬(int64Min ≤ x - y ∧ x - y ≤ int64Max)) ∧
    CScriptNum.addAssign (.small int64Max) (.small 1) =
      .error .arithmeticOverflow := by
  simp only [int64Min, int64Max] at *
  refine ⟨?_, ?_, by rfl⟩
  · rw [CScriptNum.addAssign]
    split_ifs with h
    · simp only [int64Min, int64Max] at h ⊢
      simp
      omega
    · simp only [int64Min, int64Max] at h ⊢
      simp
      omega
  · rw [CScriptNum.subAssign]
    split_ifs with h
    · simp only [int64Min, int64Max] at h ⊢
      simp
      omega
    · simp only [int64Min, int64Max] at h ⊢
      simp
      omega

/-- C3 witness: adding one to `INT64_MAX` and subtracting one from
`INT64_MIN` in the small alternative both fail with ArithmeticOverflow. -/
theorem c3_arithmetic_overflow_witness :
    CScriptNum.addAssign (.small int64Max) (.small 1) =
      .error .arithmeticOverflow ∧
    CScriptNum.subAssign (.small int64Min) (.small 1) =
      .error .arithmeticOverflow := by
  constructor
  · exact (c3_arithmetic_overflow int64Max 1 (by decide) (by decide)
      (by decide) (by decide)).2.2
  · exact (c3_arithmetic_overflow int64Min 1 (by decide) (by decide)
      (by decide) (by decide)).2.1.mpr (by decide)

/-- C4 counterexample: in the small alternative, dividing by zero does not
produce a DivByZero failure — the native division has no defined result. -/
theorem c4_counterexample :
    ¬(CScriptNum.divAssign (.small 1) (.small 0) = .error .divByZero) := by
  simp [CScriptNum.divAssign]

/-- C4 amended: with a zero divisor, `/=` and `%=` fail with DivByZero in the
big alternative (spec-modelled `bsv::bint` behaviour); in the small
alternative the source performs the native division/remainder, which on a
zero divisor has no defined result (embedded as an UndefinedBehaviour
outcome distinct from DivByZero). -/
theorem c4_div_mod_zero (x : Int) :
    CScriptNum.divAssign (.big x) (.big 0) = .error .divByZero ∧
    CScriptNum.modAssign (.big x) (.big 0) = .error .divByZero ∧
    CScriptNum.divAssign (.small x) (.small 0) = .error .undefinedBehaviour ∧
    CScriptNum.modAssign (.small x) (.small 0) = .error .undefinedBehaviour := by
  refine ⟨?_, ?_, ?_, ?_⟩ <;> simp [CScriptNum.divAssign, CScriptNum.modAssign]

/-- C5: every binary arithmetic and bit-AND operation on a mixed-alternative
pair fails with TagMismatch (the source's `assert(equal_index(other))`). -/
theorem c5_tag_mismatch (x y : Int) :
    CScriptNum.addAssign (.small x) (.big y) = .error .tagMismatch ∧
    CScriptNum.addAssign (.big x) (.small y) = .error .tagMismatch ∧
    CScriptNum.subAssign (.small x) (.big y) = .error .tagMismatch ∧
    CScriptNum.subAssign (.big x) (.small y) = .error .tagMismatch ∧
    CScriptNum.mulAssign (.small x) (.big y) = .error .tagMismatch ∧
    CScriptNum.mulAssign (.big x) (.small y) = .error .tagMismatch ∧
    CScriptNum.divAssign (.small x) (.big y) = .error .tagMismatch ∧
    CScriptNum.divAssign (.big x) (.small y) = .error .tagMismatch ∧
    CScriptNum.modAssign (.small x) (.big y) = .error .tagMismatch ∧
    CScriptNum.modAssign (.big x) (.small y) = .error .tagMismatch ∧
    CScriptNum.andAssign (.small x) (.big y) = .error .tagMismatch ∧
    CScriptNum.andAssign (.big x) (.small y) = .error .tagMismatch := by
  refine ⟨rfl, rfl, rfl, rfl, rfl, rfl, rfl, rfl, rfl, rfl, rfl, rfl⟩

/-- C6: `==` and `<` are defined on every pair of script numbers, including
mixed-alternative pairs, and compare the mathematical values; in particular
`small(n) == big(n)` and `small(n) < big(n+1)` for every integer. -/
theorem c6_comparison (a b : CScriptNum) (n : Int) :
    (CScriptNum.eqOp a b = true ↔ a.value = b.value) ∧
    (CScriptNum.ltOp a b = true ↔ a.value < b.value) ∧
    CScriptNum.eqOp (.small n) (.big n) = true ∧
    CScriptNum.ltOp (.small n) (.big (n + 1)) = true := by
  refine ⟨?_, ?_, ?_, ?_⟩
  · cases a <;> cases b <;> simp [CScriptNum.eqOp, CScriptNum.value]
  · cases a <;> cases b <;> simp [CScriptNum.ltOp, CScriptNum.value]
  · simp [CScriptNum.eqOp]
  · simp [CScriptNum.ltOp]

/-- C7: `getint` on the small alternative clamps the stored value to the
native `int` range (saturating at `INT_MAX` / `INT_MIN`); it is not defined
on the big alternative. -/
theorem c7_getint_saturates (n m : Int) :
    CScriptNum.getint (.small n) = some (max intMin (min intMax n)) ∧
    CScriptNum.getint (.big m) = none := by
  constructor
  · rw [CScriptNum.getint]
    congr 1
    simp only [intMin, intMax]
    split_ifs <;> omega
  · rfl

/-- Modelled from the spec: the slice of `CTransactionRef` the publisher
uses (`primitives/transaction.h` is not part of the source slice; spec
non-goals: "no transaction semantics beyond size/id extraction").
`totalSize` stands for `GetTotalSize()`, `txid` for `GetId()` (a `uint256`,
carried as a natural number). -/
structure Transaction where
  totalSize : Nat
  txid : Nat
  deriving DecidableEq, Repr

/-- `InvalidTxnInfo::TxData`: the `{size, txid}` pair kept after the
transaction body is discarded. -/
structure TxData where
  txSize : Nat
  txid : Nat
  deriving DecidableEq, Repr

/-- `InvalidTxnInfo::BlockOrigin`: how a block entered the node. -/
structure BlockOrigin where
  source : String
  address : String
  nodeId : Int
  deriving DecidableEq, Repr

/-- `InvalidTxnInfo::BlockDetails`. -/
structure BlockDetails where
  origins : List BlockOrigin
  hash : Nat
  height : Int
  time : Int
  deriving DecidableEq, Repr

/-- `InvalidTxnInfo::TxDetails` (the transaction-origin alternative); the
source of the transaction is carried as a string. -/
structure TxDetails where
  src : String
  nodeId : Int
  address : String
  deriving DecidableEq, Repr

/-- `std::variant<CTransactionRef, TxData> mTransaction`. -/
inductive TxBody where
  | fullTx (tx : Transaction)
  | txData (d : TxData)
  deriving DecidableEq, Repr

/-- Whether the body currently holds the full transaction
(`std::holds_alternative<CTransactionRef>(mTransaction)`). -/
def TxBody.holdsFullTx : TxBody → Bool
  | .fullTx _ => true
  | .txData _ => false

/-- Modelled from the spec: the mode of `CValidationState` (`validation.h`
is not part of the source slice); the state is valid, invalid, or in error,
and `IsValid()` holds exactly in the first mode. -/
inductive ValidationMode where
  | valid
  | invalid
  | err
  deriving DecidableEq, Repr

/-- Modelled from the spec: `CValidationState` reduced to its mode
(`validation.h` is not part of the source slice). -/
structure CValidationState where
  mode : ValidationMode
  deriving DecidableEq, Repr

/-- Modelled from the spec: `CValidationState::IsValid()`. -/
def CValidationState.IsValid (s : CValidationState) : Bool :=
  decide (s.mode = .valid)

/-- `InvalidTxnInfo`: record of a rejected transaction with its origin
context, validation state, and rejection time. -/
structure InvalidTxnInfo where
  mTransaction : TxBody
  mTxValidationState : CValidationState
  mDetails : BlockDetails ⊕ TxDetails
  mRejectionTime : Int
  deriving DecidableEq, Repr

/-- The four-argument `InvalidTxnInfo` constructor
`InvalidTxnInfo(tx, details, rejectionTime, state)`. -/
def InvalidTxnInfo.make (tx : Transaction) (details : BlockDetails ⊕ TxDetails)
    (rejectionTime : Int) (st : CValidationState) : InvalidTxnInfo :=
  { mTransaction := .fullTx tx
    mTxValidationState := st
    mDetails := details
    mRejectionTime := rejectionTime }

/-- The convenience constructor `InvalidTxnInfo(tx, hash, height, time,
state)`: delegates to the four-argument constructor with
`BlockDetails{{}, hash, height, time}` and `std::time(nullptr)` as the
rejection time.  The wall clock read by `std::time(nullptr)` is passed
explicitly as `now`. -/
def InvalidTxnInfo.makeFromBlock (tx : Transaction) (hash : Nat)
    (height time : Int) (st : CValidationState) (now : Int) : InvalidTxnInfo :=
  InvalidTxnInfo.make tx (.inl ⟨[], hash, height, time⟩) now st

/-- `InvalidTxnInfo::TruncateTransactionDetails`: when the body holds the
full transaction, replace it by `TxData{GetTotalSize(), GetId()}` and return
true; otherwise return false and leave the record unchanged.  Returns the
flag together with the updated record (the C++ mutates in place). -/
def InvalidTxnInfo.TruncateTransactionDetails
    (info : InvalidTxnInfo) : Bool × InvalidTxnInfo :=
  match info.mTransaction with
  | .txData _ => (false, info)
  | .fullTx tx =>
    (true, { info with mTransaction := .txData ⟨tx.totalSize, tx.txid⟩ })

/-- Number of `true` results over `n` successive truncation calls on one
record, threading the updated record through. -/
def truncateTrueCount : Nat → InvalidTxnInfo → Nat
  | 0, _ => 0
  | n + 1, info =>
    (if (info.TruncateTransactionDetails).1 then 1 else 0) +
      truncateTrueCount n (info.TruncateTransactionDetails).2

/-- Modelled from the spec: `CScopedBlockOriginRegistry::GetOrigins`
(only declared in the slice; spec section 4.5: a snapshot copy of all
entries with matching hash, in insertion order).  The registry is passed
explicitly as an association list. -/
def GetOrigins (registry : List (Nat × BlockOrigin)) (blockHash : Nat) :
    List BlockOrigin :=
  (registry.filter (fun e => e.1 == blockHash)).map (fun e => e.2)

/-- `CScopedInvalidTxSenderBlock::~CScopedInvalidTxSenderBlock`: at scope
exit, return without publishing when the validation state is valid;
otherwise fill the block details' origins from the registry and publish
`{transaction, blockDetails, std::time(nullptr), validationState}`.
Returns the published record, if any; the wall clock is passed as `now`
and the registry as an explicit list. -/
def scopedSenderBlockExit (registry : List (Nat × BlockOrigin))
    (blockDetails : BlockDetails) (transaction : Transaction)
    (validationState : CValidationState) (now : Int) : Option InvalidTxnInfo :=
  if validationState.IsValid then none
  else some (InvalidTxnInfo.make transaction
    (.inl { blockDetails with origins := GetOrigins registry blockDetails.hash })
    now validationState)

theorem truncateTrueCount_txData (n : Nat) (info : InvalidTxnInfo)
    (h : info.mTransaction.holdsFullTx = false) :
    truncateTrueCount n info = 0 := by
  have hstep : info.TruncateTransactionDetails = (false, info) := by
    cases hb : info.mTransaction with
    | fullTx tx =>
      rw [hb] at h
      exact absurd h (by simp [TxBody.holdsFullTx])
    | txData d =>
      rw [InvalidTxnInfo.TruncateTransactionDetails, hb]
  induction n with
  | zero => rfl
  | succ k ih =>
    rw [truncateTrueCount, hstep]
    simpa using ih

/-- C8: truncation returns true exactly when the body holds the full
transaction, in which case the body is replaced by `{size, txid}`; on an
already-truncated record it returns false and changes nothing; over any
sequence of calls on one record it returns true at most once. -/
theorem c8_truncate_once (info : InvalidTxnInfo) :
    ((info.TruncateTransactionDetails).1 = info.mTransaction.holdsFullTx) ∧
    (info.mTransaction.holdsFullTx = false →
      info.TruncateTransactionDetails = (false, info)) ∧
    (∀ tx, info.mTransaction = .fullTx tx →
      info.TruncateTransactionDetails =
        (true, { info with mTransaction := .txData ⟨tx.totalSize, tx.txid⟩ })) ∧
    (∀ n, truncateTrueCount n info ≤ 1) := by
  refine ⟨?_, ?_, ?_, ?_⟩
  · cases hb : info.mTransaction <;>
      simp [InvalidTxnInfo.TruncateTransactionDetails, TxBody.holdsFullTx, hb]
  · intro h
    cases hb : info.mTransaction with
    | fullTx tx =>
      rw [hb] at h
      exact absurd h (by simp [TxBody.holdsFullTx])
    | txData d =>
      rw [InvalidTxnInfo.TruncateTransactionDetails, hb]
  · intro tx hb
    rw [InvalidTxnInfo.TruncateTransactionDetails, hb]
  · intro n
    cases hb : info.mTransaction with
    | txData d =>
      have h0 := truncateTrueCount_txData n info (by rw [hb]; rfl)
      omega
    | fullTx tx =>
      cases n with
      | zero => simp [truncateTrueCount]
      | succ k =>
        rw [truncateTrueCount]
        have hstep : info.TruncateTransactionDetails =
            (true, { info with mTransaction := .txData ⟨tx.totalSize, tx.txid⟩ }) := by
          rw [InvalidTxnInfo.TruncateTransactionDetails, hb]
        rw [hstep]
        have h0 := truncateTrueCount_txData k
          { info with mTransaction := .txData ⟨tx.totalSize, tx.txid⟩ } (by rfl)
        simp [h0]

/-- C8 witness: on a concrete record holding a full transaction, truncation
succeeds once, the second truncation is a no-op returning false, and three
successive calls return true exactly once. -/
theorem c8_truncate_once_witness :
    InvalidTxnInfo.TruncateTransactionDetails
      (InvalidTxnInfo.make ⟨250, 7⟩ (.inr ⟨"p2p", 3, "addr"⟩) 1000 ⟨.invalid⟩) =
      (true, { InvalidTxnInfo.make ⟨250, 7⟩ (.inr ⟨"p2p", 3, "addr"⟩) 1000 ⟨.invalid⟩
                with mTransaction := .txData ⟨250, 7⟩ }) ∧
    InvalidTxnInfo.TruncateTransactionDetails
      { InvalidTxnInfo.make ⟨250, 7⟩ (.inr ⟨"p2p", 3, "addr"⟩) 1000 ⟨.invalid⟩
          with mTransaction := .txData ⟨250, 7⟩ } =
      (false, { InvalidTxnInfo.make ⟨250, 7⟩ (.inr ⟨"p2p", 3, "addr"⟩) 1000 ⟨.invalid⟩
                  with mTransaction := .txData ⟨250, 7⟩ }) ∧
    truncateTrueCount 3
      (InvalidTxnInfo.make ⟨250, 7⟩ (.inr ⟨"p2p", 3, "addr"⟩) 1000 ⟨.invalid⟩) ≤ 1 := by
  refine ⟨?_, ?_, ?_⟩
  · exact (c8_truncate_once _).2.2.1 ⟨250, 7⟩ rfl
  · exact (c8_truncate_once _).2.1 rfl
  · exact (c8_truncate_once _).2.2.2 3

/-- C9: at scope exit of `CScopedInvalidTxSenderBlock`, a record is
published exactly when the validation state is non-valid at that moment;
a valid state publishes nothing. -/
theorem c9_publish_iff_invalid (registry : List (Nat × BlockOrigin))
    (bd : BlockDetails) (tx : Transaction) (st : CValidationState) (now : Int) :
    ((scopedSenderBlockExit registry bd tx st now).isSome = !st.IsValid) ∧
    (st.IsValid = true → scopedSenderBlockExit registry bd tx st now = none) ∧
    (st.IsValid = false →
      scopedSenderBlockExit registry bd tx st now =
        some (InvalidTxnInfo.make tx
          (.inl { bd with origins := GetOrigins registry bd.hash }) now st)) := by
  refine ⟨?_, ?_, ?_⟩
  · cases h : st.IsValid <;> simp [scopedSenderBlockExit, h]
  · intro h
    simp [scopedSenderBlockExit, h]
  · intro h
    simp [scopedSenderBlockExit, h]

/-- C9 witness: a valid state publishes nothing; a non-valid state
publishes a record. -/
theorem c9_publish_iff_invalid_witness :
    scopedSenderBlockExit [] ⟨[], 5, 1, 2⟩ ⟨10, 9⟩ ⟨.valid⟩ 99 = none ∧
    (scopedSenderBlockExit [] ⟨[], 5, 1, 2⟩ ⟨10, 9⟩ ⟨.err⟩ 99).isSome = true := by
  constructor
  · exact (c9_publish_iff_invalid [] ⟨[], 5, 1, 2⟩ ⟨10, 9⟩ ⟨.valid⟩ 99).2.1 rfl
  · rw [(c9_publish_iff_invalid [] ⟨[], 5, 1, 2⟩ ⟨10, 9⟩ ⟨.err⟩ 99).1]
    rfl

/-- C10: the five-argument convenience constructor stores its `time`
argument only inside the block details; the record's rejection time is the
wall clock read at construction (`std::time(nullptr)`, passed as `now`),
independent of the `time` argument. -/
theorem c10_rejection_time (tx : Transaction) (hash : Nat)
    (height time : Int) (st : CValidationState) (now : Int) :
    ((InvalidTxnInfo.makeFromBlock tx hash height time st now).mRejectionTime
      = now) ∧
    ((InvalidTxnInfo.makeFromBlock tx hash height time st now).mDetails
      = .inl ⟨[], hash, height, time⟩) ∧
    (∀ t₁ t₂ : Int,
      (InvalidTxnInfo.makeFromBlock tx hash height t₁ st now).mRejectionTime =
      (InvalidTxnInfo.makeFromBlock tx hash height t₂ st now).mRejectionTime) :=
  ⟨rfl, rfl, fun _ _ => rfl⟩
